import Mathlib

/-!
Verification of the cpv_data category/property ETL pipeline.

This file gives a shallow embedding of the shape-transforming core of the
repository (src/cpv_category.py, src/cpv_property.py, src/main.py):

* `format_category_paths` — the path formatter turning a root-to-leaf
  id/name path plus an explicit terminal pair into an ordered mapping
  (Python dicts preserve insertion order; all keys written by the function
  are pairwise distinct, so the dict is modelled as an ordered association
  list built by appending).
* `recursive_fetch` — the tree walker, with the per-node error handling of
  the Python `try`/`except` blocks made explicit (caught errors yield no
  rows for the node; an `IndexError` escaping `format_category_paths`
  propagates uncaught).  Recursion depth is bounded by explicit fuel; the
  Python code has no cycle guard and diverges on an infinite tree, which
  corresponds to every fuel bound being exceeded.
* `pdOuterMerge` / `mergeLanguages` — the multi-language reconciler: the
  sequential fold of `pd.merge(..., how='outer')` calls over the per-language
  tables, keyed on the hierarchy-id columns.  A table is a list of
  (hierarchy key, language payload) rows; the unified table carries, per
  row, one optional payload cell per language (a `none` cell is a NaN cell
  of the DataFrame).
* `flattenItem` / `flatten_properties` — the property/value flattener.
* `propFetchStep` / `fetch_category_properties` — the retry loop of the
  per-language property fetch.
* `mergedColumns` / `merge_property_column_order` — the column ordering
  computed by `merge_category_properties`.
-/

namespace Cpv

/-! ## Ordered dictionaries as association lists -/

/-- Lookup in an ordered association list (first binding wins), the model of
Python `d[k]` returning `some` and of a missing key returning `none`. -/
def alookup {κ α : Type} [DecidableEq κ] (k : κ) : List (κ × α) → Option α
  | [] => none
  | p :: rest => if p.1 = k then some p.2 else alookup k rest

/-- Python dict assignment `d[k] = v`: overwrite in place when the key is
present, append otherwise. -/
def dinsert (d : List (String × String)) (k : String) (v : String) :
    List (String × String) :=
  if d.any (fun p => decide (p.1 = k)) then
    d.map (fun p => if p.1 = k then (p.1, v) else p)
  else
    d ++ [(k, v)]

/-- Python `d.update(e)`: assign every binding of `e` into `d` in order. -/
def dictUpdate (d e : List (String × String)) : List (String × String) :=
  e.foldl (fun acc kv => dinsert acc kv.1 kv.2) d

/-! ## Path formatter (src/cpv_category.py lines 6-34, identical copy in
src/main.py lines 26-54) -/

/-- Column name `subCategoryLevel{i}Id`. -/
def subIdKey (i : Nat) : String := "subCategoryLevel" ++ toString i ++ "Id"

/-- Column name `subCategoryLevel{i}Name`. -/
def subNameKey (i : Nat) : String := "subCategoryLevel" ++ toString i ++ "Name"

/-- A flattened category row: the ordered mapping built by the formatter. -/
abbrev Row := List (String × String)

/-- The `for index, (cat_id, cat_name) in enumerate(zip(idPath[1:],
namePath[1:]), start=2)` loop of `format_category_paths`: at `index =
len(categoryIdPath)` the explicit terminal pair is written under the leaf
keys, at every other index the pair is written under the
`subCategoryLevel{index-1}` keys.  All keys are distinct, so dict insertion
is plain appending. -/
def formatLoop (n : Nat) (finalId finalName : String) :
    Nat → List (String × String) → Row
  | _, [] => []
  | index, (catId, catName) :: rest =>
    if index = n then
      ("leafCategoryId", finalId) :: ("leafCategoryName", finalName) ::
        formatLoop n finalId finalName (index + 1) rest
    else
      (subIdKey (index - 1), catId) :: (subNameKey (index - 1), catName) ::
        formatLoop n finalId finalName (index + 1) rest

/-- Embedding of `format_category_paths(categoryIdPath, categoryNamePath,
finalCategoryId, finalCategoryName)`.  Indexing `categoryIdPath[0]` or
`categoryNamePath[0]` on an empty list raises an uncaught `IndexError`,
modelled as `.error`; otherwise the function returns the ordered dict built
from the top pair followed by the loop output over the zipped tails. -/
def format_category_paths (categoryIdPath categoryNamePath : List String)
    (finalCategoryId finalCategoryName : String) : Except String Row :=
  match categoryIdPath, categoryNamePath with
  | [], _ => .error "IndexError: list index out of range"
  | _ :: _, [] => .error "IndexError: list index out of range"
  | i0 :: irest, n0 :: nrest =>
    .ok (("topCategoryId", i0) :: ("topCategoryName", n0) ::
      formatLoop (irest.length + 1) finalCategoryId finalCategoryName 2
        (irest.zip nrest))

/-- Spec-side description of the formatter output (section 4.1 of the spec):
top pair from index 0, sub-level pairs `subCategoryLevel{i}` for
`i = 1 .. N-2` taken from path index `i`, then the explicit terminal pair
under the leaf keys. -/
def pathSpecRow (idPath namePath : List String)
    (finalId finalName : String) : Row :=
  [("topCategoryId", idPath.headD ""), ("topCategoryName", namePath.headD "")]
    ++ (List.range (idPath.length - 2)).flatMap (fun j =>
        [(subIdKey (j + 1), idPath.getD (j + 1) ""),
         (subNameKey (j + 1), namePath.getD (j + 1) "")])
    ++ [("leafCategoryId", finalId), ("leafCategoryName", finalName)]

/-! ## Tree walker (src/cpv_category.py lines 49-80, identical copy in
src/main.py lines 69-100) -/

/-- A category entry of the JSON payload: every expected key may be absent
(`none`), which on access raises a `KeyError` in the Python code. -/
structure RawEntry where
  leafCategory : Option Bool
  categoryId : Option String
  categoryName : Option String
  categoryIdPath : Option (List String)
  categoryNamePath : Option (List String)
deriving DecidableEq

/-- Body of an HTTP response: `badJson` models a `json.JSONDecodeError`
from `response.json()`, `json none` a parsed object without the expected
`data` key (a `KeyError`), `json (some entries)` a well-formed payload. -/
inductive RespBody where
  | badJson
  | json (data : Option (List RawEntry))
deriving DecidableEq

/-- An HTTP response: status code plus body. -/
structure Resp where
  status : Nat
  body : RespBody
deriving DecidableEq

/-- A fetch attempt for a node fails when the status is not 200, the body is
not JSON, or the `data` key is missing — exactly the three conditions the
Python code catches and logs per node. -/
def respFailure (r : Resp) : Prop :=
  r.status ≠ 200 ∨ r.body = .badJson ∨ r.body = .json none

instance (r : Resp) : Decidable (respFailure r) := by
  unfold respFailure; infer_instance

/-- A successful response carrying an empty list of children. -/
def emptyOkResp : Resp := ⟨200, .json (some [])⟩

/-- The `for category_data in categories` loop of `recursive_fetch`.  A
missing key (`none` field) raises a `KeyError` which the enclosing `try` of
the same invocation catches: the loop stops and the rows appended so far are
kept, modelled by returning `.ok []` for the remaining entries.  An
`IndexError` from `format_category_paths` is not caught anywhere and aborts
the whole traversal, modelled by propagating `.error`.  `recur` is the
recursive call for a non-leaf child. -/
def processEntries (recur : String → Except String (List Row)) :
    List RawEntry → Except String (List Row)
  | [] => .ok []
  | e :: rest =>
    match e.leafCategory with
    | none => .ok []
    | some isLeaf =>
      if isLeaf then
        match e.categoryId, e.categoryName, e.categoryIdPath,
            e.categoryNamePath with
        | some cid, some cname, some ip, some np =>
          match format_category_paths ip np cid cname with
          | .error err => .error err
          | .ok row =>
            match processEntries recur rest with
            | .error err => .error err
            | .ok rows => .ok (row :: rows)
        | _, _, _, _ => .ok []
      else
        match e.categoryId with
        | none => .ok []
        | some cid =>
          match recur cid with
          | .error err => .error err
          | .ok subRows =>
            match processEntries recur rest with
            | .error err => .error err
            | .ok rows => .ok (subRows ++ rows)

/-- Embedding of `recursive_fetch`.  The fetch oracle maps a category id to
the response of the listSubCategories endpoint (the URL is a fixed function
of the category id and language, so the oracle is keyed by the id).  A
non-200 status, undecodable body, or missing `data` key is logged and the
node contributes no rows.  `fuel` bounds the recursion depth: the Python
code has no cycle guard, and both sides of every theorem below use the same
bound. -/
def recursive_fetch (fetch : String → Resp) :
    Nat → String → Except String (List Row)
  | 0, _ => .ok []
  | fuel + 1, catId =>
    let resp := fetch catId
    if resp.status = 200 then
      match resp.body with
      | .badJson => .ok []
      | .json none => .ok []
      | .json (some entries) =>
        processEntries (recursive_fetch fetch fuel) entries
    else
      .ok []

/-- A concrete fetch oracle used to instantiate the partial-failure theorem:
root `r` has two non-leaf children `a` and `x`; `a` has one leaf child and
`x` answers with HTTP 500 and an undecodable body. -/
def c4Fetch : String → Resp := fun s =>
  if s = "r" then
    ⟨200, .json (some [
      ⟨some false, some "a", some "A", none, none⟩,
      ⟨some false, some "x", some "X", none, none⟩])⟩
  else if s = "a" then
    ⟨200, .json (some [
      ⟨some true, some "a1", some "A1", some ["r", "a1"],
        some ["R", "A1"]⟩])⟩
  else if s = "x" then
    ⟨500, .badJson⟩
  else
    ⟨200, .json (some [])⟩

/-! ## Multi-language reconciler (src/main.py lines 291-301,
src/cpv_category.py lines 167-170) -/

/-- Embedding of one `pd.merge(left, right, on=keys, how='outer')` call,
restricted to the shape used by the pipeline: every row is its join-key
tuple `κ` (the hierarchy-id columns) plus the non-key payload of its table.
Each left row produces one output row per matching right row (a cartesian
product within equal keys), or a single row with a `none` right payload when
nothing matches; right rows with no matching left key are appended at the
end with a `none` left payload. -/
def pdOuterMerge {κ γ β : Type} [DecidableEq κ]
    (L : List (κ × γ)) (R : List (κ × β)) :
    List (κ × Option γ × Option β) :=
  (L.flatMap (fun p =>
    let ms := R.filter (fun q => decide (q.1 = p.1))
    if ms.isEmpty then [(p.1, some p.2, none)]
    else ms.map (fun q => (p.1, some p.2, some q.2))))
    ++ (R.filter (fun q => !(L.any (fun p => decide (p.1 = q.1))))).map
        (fun q => (q.1, none, some q.2))

/-- One step of the sequential fold of outer merges in `main`: the
accumulator rows carry one optional payload cell per language already
merged (`i` of them); after merging the next language the cells of an
unmatched right row for the already-merged languages are NaN, i.e.
`replicate i none`. -/
def mergeStep {κ α : Type} [DecidableEq κ] (i : Nat)
    (acc : List (κ × List (Option α))) (t : List (κ × α)) :
    List (κ × List (Option α)) :=
  (pdOuterMerge acc t).map (fun r =>
    (r.1, (r.2.1.getD (List.replicate i none)) ++ [r.2.2]))

/-- Fold of `mergeStep` over the remaining per-language tables, `i` being
the number of languages already merged. -/
def mergeLanguagesAux {κ α : Type} [DecidableEq κ]
    (acc : List (κ × List (Option α))) (i : Nat) :
    List (List (κ × α)) → List (κ × List (Option α))
  | [] => acc
  | t :: ts => mergeLanguagesAux (mergeStep i acc t) (i + 1) ts

/-- Embedding of the reconciliation loop of `main` (`merged_df` starts as
the first language table, then outer-merges every further language table on
the hierarchy-id columns).  A unified row is its hierarchy key plus one
optional name-payload cell per language, in language order. -/
def mergeLanguages {κ α : Type} [DecidableEq κ]
    (ts : List (List (κ × α))) : List (κ × List (Option α)) :=
  match ts with
  | [] => []
  | t :: rest => mergeLanguagesAux (t.map (fun p => (p.1, [some p.2]))) 1 rest

/-! ## Property/value flattener (src/cpv_property.py lines 10-43, identical
copy in src/main.py lines 143-176) -/

/-- A property schema entry: its scalar fields in JSON order (every key
except `propertyValues`), and the `propertyValues` key, `none` when the key
is absent and `some vs` when present with list `vs` of value dicts. -/
structure PropItem where
  fields : List (String × String)
  propertyValues : Option (List (List (String × String)))
deriving DecidableEq

/-- The argument of `flatten_properties`: a JSON list, a single JSON dict,
or any other JSON value (for which the function emits nothing). -/
inductive PropJson where
  | plist (items : List PropItem)
  | pdict (item : PropItem)
  | other
deriving DecidableEq

/-- Records emitted for one schema entry: with `propertyValues` present,
one record per value, the entry fields updated by the value dict; with the
key absent, the entry fields unchanged as a single record. -/
def flattenItem (item : PropItem) : List Row :=
  match item.propertyValues with
  | some vs => vs.map (fun v => dictUpdate item.fields v)
  | none => [item.fields]

/-- Embedding of `flatten_properties`. -/
def flatten_properties : PropJson → List Row
  | .plist items => items.flatMap flattenItem
  | .pdict item => flattenItem item
  | .other => []

/-! ## Per-language property fetch with retry (src/main.py lines 199-229,
src/cpv_property.py lines 66-97) -/

/-- State of the `as_completed` collection loop of
`fetch_category_properties`: the per-language DataFrames collected so far,
the sequence of languages for which a retry future was submitted, and the
remaining value of the single `retry_count` variable (initialised to 3
once, outside the loop). -/
structure PropFetchState (β : Type) where
  dfs : List (String × β)
  retries : List String
  retryCount : Nat
deriving DecidableEq

/-- Handling of one completed original future.  `attempts lang i` is the
outcome of the `i`-th fetch attempt for `lang` (`none`: the future raised).
`concurrent.futures.as_completed(future_to_language)` snapshots the set of
futures when called, so the loop only ever yields the original futures
(attempt 0); a future resubmitted into the dict on failure runs attempt 1,
but its result is never read by anyone.  Hence a success stores the
attempt-0 table, and a failure consumes one unit of the shared budget to
record a resubmission (if any budget is left) without ever adding data. -/
def propFetchStep {β : Type} (attempts : String → Nat → Option β)
    (s : PropFetchState β) (lang : String) : PropFetchState β :=
  match attempts lang 0 with
  | some t => { s with dfs := s.dfs ++ [(lang, t)] }
  | none =>
    if 0 < s.retryCount then
      { s with retries := s.retries ++ [lang],
               retryCount := s.retryCount - 1 }
    else s

/-- Embedding of `fetch_category_properties`: the original futures complete
in some order (a parameter, since completion order is scheduler-dependent)
and are processed by `propFetchStep` starting from an empty dict and a
budget of 3. -/
def fetch_category_properties {β : Type} (attempts : String → Nat → Option β)
    (completionOrder : List String) : PropFetchState β :=
  completionOrder.foldl (propFetchStep attempts) ⟨[], [], 3⟩

/-! ## Unified property table column order (src/main.py lines 231-260,
src/cpv_property.py lines 99-128) -/

/-- Python `s.endswith(t)`, on the character lists of the strings. -/
def pyEndsWith (s t : String) : Bool := List.isSuffixOf t.data s.data

/-- Python `s[:-n]` for `n ≤ len(s)`: drop the last `n` characters. -/
def pyDropRight (s : String) (n : Nat) : String :=
  ⟨s.data.take (s.data.length - n)⟩

/-- The `col.endswith(('_en', '_de', '_fr'))` test. -/
def endsWithLang (col : String) : Bool :=
  pyEndsWith col "_en" || pyEndsWith col "_de" || pyEndsWith col "_fr"

/-- Join keys of the property merge. -/
def propKeyCols : List String := ["categoryId", "valueId", "propertyId"]

/-- Columns of `pd.merge(acc, right, on=keys, how='outer',
suffixes=('', '_' + right.columns[1]))`: the left columns unchanged, then
every non-key right column, suffixed with `'_' + right.columns[1]` when it
collides with a left column. -/
def pdMergeCols (acc right : List String) : List String :=
  acc ++ (right.filter (fun x => !propKeyCols.contains x)).map
    (fun x => if acc.contains x then x ++ "_" ++ right.getD 1 "" else x)

/-- Columns of `merged_df` after the sequential fold of property merges. -/
def mergedColumns (dfCols : List (List String)) : List String :=
  match dfCols with
  | [] => []
  | c0 :: rest => rest.foldl pdMergeCols c0

/-- The fixed head of `column_order` in `merge_category_properties`. -/
def propFixedCols : List String :=
  ["categoryId", "valueId", "propertyId", "saleProp", "required",
   "inputProp", "enumProp", "hasUnit", "showType", "multiSelect"]

/-- Inner body of the `column_order` loop for one column name. -/
def columnOrderStep (merged : List String) (co : List String)
    (col : String) : List String :=
  if endsWithLang col then
    let prefCol := pyDropRight col 3 ++ "_"
    let co' :=
      if co.contains prefCol then co
      else if merged.contains prefCol then co ++ [prefCol]
      else co
    co' ++ [col]
  else co

/-- The `column_order` computed by `merge_category_properties` from the
per-language DataFrame column lists: the fixed head, then for every
DataFrame in order, its language-suffixed columns (with the dead
`prefix_col_name` branch modelled faithfully). -/
def merge_property_column_order (dfCols : List (List String)) : List String :=
  let merged := mergedColumns dfCols
  dfCols.foldl (fun co c => c.foldl (columnOrderStep merged) co) propFixedCols

/-- Embedding of the final `merged_df = merged_df[column_order]` selection:
the exported table has exactly the `column_order` columns when they all
exist in the merged frame, and the selection raises a `KeyError` otherwise. -/
def merge_category_properties_cols (dfCols : List (List String)) :
    Except String (List String) :=
  let co := merge_property_column_order dfCols
  if co.all (fun c => (mergedColumns dfCols).contains c) then .ok co
  else .error "KeyError"

/-- Concrete attempt oracle: language `en` raises on its original fetch and
would succeed on the retried fetch; `de` and `fr` succeed immediately. -/
def c6Attempts : String → Nat → Option (List (String × String)) :=
  fun lang i =>
    if lang = "en" then
      (if i = 0 then none else some [("propertyText_en", "T")])
    else some [("propertyText_" ++ lang, "T")]

/-- Concrete attempt oracle: language `en` raises on every attempt. -/
def c6AttemptsFail : String → Nat → Option (List (String × String)) :=
  fun lang _ =>
    if lang = "en" then none else some [("propertyText_" ++ lang, "T")]

/-- Columns of one per-language property DataFrame as built by the pipeline
(entry key order of the listProp payload, text columns language-suffixed). -/
def c7LangCols (l : String) : List String :=
  ["propertyId", "propertyText_" ++ l, "showType", "saleProp", "required",
   "inputProp", "hasUnit", "enumProp", "multiSelect", "valueId",
   "valueText_" ++ l, "categoryId"]

/-- Per-language DataFrame column lists for the three pipeline languages. -/
def c7DfCols : List (List String) :=
  [c7LangCols "en", c7LangCols "de", c7LangCols "fr"]

/-- Column list asserted by the spec for the unified property table:
`categoryId, valueId, propertyId, saleProp, required, inputProp, enumProp,
hasUnit, showType`, then `propertyText_<lang>, valueText_<lang>` per
language. -/
def claimedPropertyColumns (langs : List String) : List String :=
  ["categoryId", "valueId", "propertyId", "saleProp", "required",
   "inputProp", "enumProp", "hasUnit", "showType"]
    ++ langs.flatMap (fun l =>
        ["propertyText_" ++ l, "valueText_" ++ l])

/-! ## Helper lemmas -/

theorem flatMap_congr_mem {α β : Type} {l : List α} {f g : α → List β}
    (h : ∀ a ∈ l, f a = g a) : l.flatMap f = l.flatMap g := by
  induction l with
  | nil => rfl
  | cons a l ih =>
    simp only [List.flatMap_cons]
    rw [h a (List.mem_cons_self a l),
      ih (fun b hb => h b (List.mem_cons_of_mem a hb))]

theorem range_succ_flatMap {β : Type} (m : Nat) (f : Nat → List β) :
    (List.range (m + 1)).flatMap f
      = f 0 ++ (List.range m).flatMap (fun j => f (j + 1)) := by
  rw [List.range_succ_eq_map]
  simp [List.flatMap_cons, List.flatMap_map, Function.comp]

theorem zip_getD {α β : Type} :
    ∀ (as : List α) (bs : List β) (j : Nat) (d : α) (e : β),
      j < as.length → j < bs.length →
      (as.zip bs).getD j (d, e) = (as.getD j d, bs.getD j e)
  | [], _, _, _, _, h, _ => absurd h (Nat.not_lt_zero _)
  | _ :: _, [], _, _, _, _, h => absurd h (Nat.not_lt_zero _)
  | _ :: _, _ :: _, 0, _, _, _, _ => rfl
  | a :: as, b :: bs, j + 1, d, e, h1, h2 => by
    simp only [List.zip_cons_cons, List.getD_cons_succ]
    exact zip_getD as bs j d e (Nat.lt_of_succ_lt_succ h1)
      (Nat.lt_of_succ_lt_succ h2)

/-- Closed form of `formatLoop`: starting at index `base + 1` on a pair list
whose last element sits at index `n`, the loop emits a sub-level pair for
every element but the last and the leaf pair for the last. -/
theorem formatLoop_eq (fid fname : String) :
    ∀ (ps : List (String × String)) (n base : Nat),
      (base + 1) + ps.length = n + 1 →
      formatLoop n fid fname (base + 1) ps =
        ((List.range (ps.length - 1)).flatMap (fun j =>
          [(subIdKey (base + j), (ps.getD j ("", "")).1),
           (subNameKey (base + j), (ps.getD j ("", "")).2)]))
        ++ (if ps.length = 0 then [] else
            [("leafCategoryId", fid), ("leafCategoryName", fname)]) := by
  intro ps
  induction ps with
  | nil => intro n base h; simp [formatLoop]
  | cons p rest ih =>
    intro n base h
    rcases rest with _ | ⟨r, rs⟩
    · have hn : base + 1 = n := by simpa using h
      simp [formatLoop, hn]
    · have hne : base + 1 ≠ n := by
        simp only [List.length_cons] at h
        omega
      rw [formatLoop, if_neg hne]
      have h' : ((base + 1) + 1) + (r :: rs).length = n + 1 := by
        simp only [List.length_cons] at h ⊢
        omega
      rw [ih n (base + 1) h']
      simp only [List.length_cons, Nat.add_sub_cancel]
      rw [if_neg (Nat.succ_ne_zero _), if_neg (Nat.succ_ne_zero _)]
      rw [range_succ_flatMap]
      simp only [Nat.add_zero, List.getD_cons_zero, List.getD_cons_succ,
        List.cons_append, List.nil_append]
      congr 1
      congr 1
      congr 1
      exact flatMap_congr_mem (fun j _ => by
        rw [show base + (j + 1) = base + 1 + j by omega])

/-- Specialisation of `formatLoop_eq` to the call site inside
`format_category_paths`: equal-length non-empty tails, start index 2. -/
theorem formatLoop_zip_eq (fid fname : String) (irest nrest : List String)
    (hlen : irest.length = nrest.length) (hne : irest.length ≠ 0) :
    formatLoop (irest.length + 1) fid fname 2 (irest.zip nrest) =
      ((List.range (irest.length - 1)).flatMap (fun j =>
        [(subIdKey (j + 1), irest.getD j ""),
         (subNameKey (j + 1), nrest.getD j "")]))
      ++ [("leafCategoryId", fid), ("leafCategoryName", fname)] := by
  have hzl : (irest.zip nrest).length = irest.length := by
    simp [List.length_zip]; omega
  have h1 : (1 + 1) + (irest.zip nrest).length = (irest.length + 1) + 1 := by
    rw [hzl]; omega
  rw [show (2 : Nat) = 1 + 1 from rfl, formatLoop_eq fid fname _ _ _ h1, hzl,
    if_neg hne]
  congr 1
  exact flatMap_congr_mem (fun j hj => by
    have hjlt : j < irest.length - 1 := List.mem_range.mp hj
    rw [show ("", "") = (("" : String), ("" : String)) from rfl,
      zip_getD irest nrest j "" "" (by omega) (by omega),
      Nat.add_comm 1 j])

/-! ## Claim C1 -/

/-- C1: for equal-length id and name paths of length `N ≥ 2` and an explicit
terminal pair, `format_category_paths` returns the mapping consisting of
`topCategoryId`/`topCategoryName` from index 0, exactly `N - 2` sub-level
pairs `subCategoryLevel{i}Id`/`subCategoryLevel{i}Name` for `i = 1 .. N-2`
in path order taken from path index `i` (zero pairs when `N = 2`), and
`leafCategoryId`/`leafCategoryName` equal to the explicit terminal pair —
exactly the row described by `pathSpecRow`. -/
theorem C1_path_formatter_output (idPath namePath : List String)
    (fid fname : String) (hlen : idPath.length = namePath.length)
    (h2 : 2 ≤ idPath.length) :
    format_category_paths idPath namePath fid fname =
      .ok (pathSpecRow idPath namePath fid fname) := by
  match idPath, namePath with
  | [], _ => simp at h2
  | _ :: _, [] => simp at hlen
  | i0 :: irest, n0 :: nrest =>
    simp only [List.length_cons] at hlen h2
    have hlen' : irest.length = nrest.length := by omega
    simp only [format_category_paths, pathSpecRow, List.headD_cons,
      List.getD_cons_succ, List.length_cons, List.cons_append,
      List.nil_append]
    rw [show irest.length + 1 - 2 = irest.length - 1 by omega]
    rw [formatLoop_zip_eq fid fname irest nrest hlen' (by omega)]

/-- Witness for C1 at a concrete depth-4 path. -/
theorem C1_path_formatter_output_witness :
    format_category_paths ["10", "20", "30", "40"] ["a", "b", "c", "d"]
        "99" "leafname" =
      .ok (pathSpecRow ["10", "20", "30", "40"] ["a", "b", "c", "d"]
        "99" "leafname") :=
  C1_path_formatter_output _ _ _ _ (by decide) (by decide)

/-! ## Claim C3 -/

/-- C3 counterexample: with `idPath = ["1","2"]` and `namePath = ["a"]` the
path lengths differ, yet `format_category_paths` returns a mapping instead
of raising: `zip` silently truncates to the shorter tail.  This refutes the
claim that the formatter fails whenever the lengths differ. -/
theorem C3_mismatched_length_counterexample :
    (["1", "2"] : List String).length ≠ (["a"] : List String).length ∧
      format_category_paths ["1", "2"] ["a"] "f" "g" =
        .ok [("topCategoryId", "1"), ("topCategoryName", "a")] :=
  ⟨by decide, rfl⟩

/-- C3 (amended): `format_category_paths` raises (an uncaught `IndexError`
from indexing position 0 — the code defines no `MalformedPathError` and
performs no length check) exactly when `idPath` or `namePath` is empty, in
particular when both are empty (`N = 0`); for any other length mismatch it
returns a mapping built from the zip-truncated paths. -/
theorem C3_error_iff_empty_path (idPath namePath : List String)
    (fid fname : String) :
    (∃ e, format_category_paths idPath namePath fid fname = .error e) ↔
      idPath = [] ∨ namePath = [] := by
  match idPath, namePath with
  | [], _ => simp [format_category_paths]
  | _ :: _, [] => simp [format_category_paths]
  | i0 :: irest, n0 :: nrest => simp [format_category_paths]

/-! ## Claim C9 -/

/-- C9: on a single-element path the loop body never runs, so the returned
mapping holds only the top pair; the explicit terminal arguments `fid` and
`fname` do not occur in the result, and no leaf keys are present. -/
theorem C9_single_element_path (i0 n0 fid fname : String) :
    format_category_paths [i0] [n0] fid fname =
      .ok [("topCategoryId", i0), ("topCategoryName", n0)] := rfl

/-! ## Claim C4 -/

theorem processEntries_congr (r1 r2 : String → Except String (List Row))
    (h : ∀ s, r1 s = r2 s) :
    ∀ es, processEntries r1 es = processEntries r2 es := by
  intro es
  induction es with
  | nil => rfl
  | cons e rest ih =>
    cases hl : e.leafCategory with
    | none => simp [processEntries, hl]
    | some isLeaf =>
      cases isLeaf with
      | false =>
        cases hc : e.categoryId with
        | none => simp [processEntries, hl, hc]
        | some cid => simp [processEntries, hl, hc, h cid, ih]
      | true =>
        cases hc : e.categoryId <;> cases hn : e.categoryName <;>
          cases hip : e.categoryIdPath <;> cases hnp : e.categoryNamePath <;>
          simp [processEntries, hl, hc, hn, hip, hnp, ih]

/-- C4: a fetch failure of one of the three caught kinds (non-200 status,
undecodable JSON, missing `data` key) at node `x` is equivalent to `x`
answering with an empty child list: the traversal result from any root at
any recursion budget — in particular every row of every other branch — is
exactly the same, so the failure never aborts the traversal globally. -/
theorem C4_partial_failure_isolation (fetch : String → Resp) (x : String)
    (hx : respFailure (fetch x)) :
    ∀ fuel root,
      recursive_fetch fetch fuel root =
        recursive_fetch (Function.update fetch x emptyOkResp) fuel root := by
  intro fuel
  induction fuel with
  | zero => intro _; rfl
  | succ fuel ih =>
    intro root
    by_cases hr : root = x
    · subst hr
      rcases hx with hs | hb | hb
      · simp [recursive_fetch, hs, Function.update_same, emptyOkResp,
          processEntries]
      · simp [recursive_fetch, hb, Function.update_same, emptyOkResp,
          processEntries]
      · simp [recursive_fetch, hb, Function.update_same, emptyOkResp,
          processEntries]
    · have hup : Function.update fetch x emptyOkResp root = fetch root :=
        Function.update_noteq hr _ _
      simp only [recursive_fetch, hup]
      by_cases h200 : (fetch root).status = 200
      · simp only [if_pos h200]
        rcases hbody : (fetch root).body with _ | (_ | entries)
        · rfl
        · rfl
        · exact processEntries_congr _ _ ih entries
      · simp only [if_neg h200]

/-- Witness for C4: on the concrete two-branch oracle `c4Fetch`, where the
branch `x` fails with HTTP 500, the traversal from `r` equals the traversal
in which `x` reports no children. -/
theorem C4_partial_failure_isolation_witness :
    recursive_fetch c4Fetch 3 "r" =
      recursive_fetch (Function.update c4Fetch "x" emptyOkResp) 3 "r" :=
  C4_partial_failure_isolation c4Fetch "x" (by decide) 3 "r"

/-! ## Association-list and merge lemmas -/

theorem alookup_eq_none {κ α : Type} [DecidableEq κ] (k : κ)
    (l : List (κ × α)) :
    alookup k l = none ↔ k ∉ l.map Prod.fst := by
  induction l with
  | nil => simp [alookup]
  | cons p rest ih =>
    by_cases hp : p.1 = k
    · simp [alookup, hp]
    · simp only [alookup, if_neg hp, List.map_cons, List.mem_cons, not_or, ih]
      constructor
      · intro h; exact ⟨fun he => hp he.symm, h⟩
      · intro h; exact h.2

theorem alookup_of_mem_nodup {κ α : Type} [DecidableEq κ] {k : κ} {a : α} :
    ∀ {l : List (κ × α)}, (l.map Prod.fst).Nodup → (k, a) ∈ l →
      alookup k l = some a := by
  intro l
  induction l with
  | nil => intro _ h; simp at h
  | cons p rest ih =>
    intro hnd hmem
    simp only [List.map_cons, List.nodup_cons] at hnd
    rcases List.mem_cons.mp hmem with heq | htail
    · rw [← heq]
      simp [alookup]
    · have hk : p.1 ≠ k := by
        intro hc
        exact hnd.1 (hc ▸ List.mem_map.mpr ⟨(k, a), htail, rfl⟩)
      simp [alookup, hk, ih hnd.2 htail]

theorem filter_key_nil {κ α : Type} [DecidableEq κ] {k : κ} :
    ∀ {l : List (κ × α)}, k ∉ l.map Prod.fst →
      l.filter (fun q => decide (q.1 = k)) = [] := by
  intro l
  induction l with
  | nil => intro _; rfl
  | cons p rest ih =>
    intro h
    simp only [List.map_cons, List.mem_cons, not_or] at h
    rw [List.filter_cons_of_neg (by simpa using Ne.symm h.1)]
    exact ih h.2

theorem filter_key_nodup {κ α : Type} [DecidableEq κ] (k : κ) :
    ∀ {l : List (κ × α)}, (l.map Prod.fst).Nodup →
      l.filter (fun q => decide (q.1 = k)) =
        (match alookup k l with | none => [] | some b => [(k, b)]) := by
  intro l
  induction l with
  | nil => intro _; rfl
  | cons p rest ih =>
    intro hnd
    simp only [List.map_cons, List.nodup_cons] at hnd
    by_cases hp : p.1 = k
    · rw [List.filter_cons_of_pos (by simpa using hp)]
      rw [filter_key_nil (by rw [← hp]; exact hnd.1)]
      have ha : alookup k (p :: rest) = some p.2 := by simp [alookup, hp]
      rw [ha, ← hp]
    · rw [List.filter_cons_of_neg (by simpa using hp)]
      simp [alookup, hp, ih hnd.2]

theorem any_key_eq {κ α : Type} [DecidableEq κ] (k : κ) (l : List (κ × α)) :
    l.any (fun p => decide (p.1 = k)) = true ↔ k ∈ l.map Prod.fst := by
  simp [List.any_eq_true, List.mem_map]

theorem flatMap_singleton {α β : Type} {l : List α} {f : α → List β}
    {g : α → β} (h : ∀ a ∈ l, f a = [g a]) : l.flatMap f = l.map g := by
  induction l with
  | nil => rfl
  | cons a l ih =>
    simp only [List.flatMap_cons, List.map_cons]
    rw [h a (List.mem_cons_self a l),
      ih (fun b hb => h b (List.mem_cons_of_mem a hb))]
    rfl

/-- When the right table has pairwise-distinct keys, the outer merge is the
left rows each extended with the unique matching right payload (via
`alookup`), followed by the unmatched right rows. -/
theorem pdOuterMerge_eq {κ γ β : Type} [DecidableEq κ]
    (L : List (κ × γ)) (R : List (κ × β))
    (hR : (R.map Prod.fst).Nodup) :
    pdOuterMerge L R =
      L.map (fun p => (p.1, some p.2, alookup p.1 R))
      ++ (R.filter (fun q => !(L.any (fun p => decide (p.1 = q.1))))).map
          (fun q => (q.1, none, some q.2)) := by
  unfold pdOuterMerge
  congr 1
  apply flatMap_singleton
  intro p _
  rw [filter_key_nodup p.1 hR]
  cases h : alookup p.1 R with
  | none => simp
  | some b => simp

/-- Closed form of the two-language reconciliation when the second table has
pairwise-distinct keys. -/
theorem mergeTwo_eq {κ α : Type} [DecidableEq κ]
    (A B : List (κ × α)) (hB : (B.map Prod.fst).Nodup) :
    mergeLanguages [A, B] =
      A.map (fun p => (p.1, [some p.2, alookup p.1 B]))
      ++ (B.filter (fun q => !(A.any (fun p => decide (p.1 = q.1))))).map
          (fun q => (q.1, [none, some q.2])) := by
  show mergeStep 1 (A.map (fun p => (p.1, [some p.2]))) B = _
  unfold mergeStep
  rw [pdOuterMerge_eq _ _ hB]
  have hany : ∀ q : κ × α,
      ((A.map (fun p => (p.1, [some p.2]))).any
        (fun p => decide (p.1 = q.1)))
      = A.any (fun p => decide (p.1 = q.1)) := by
    intro q
    induction A with
    | nil => rfl
    | cons a as ih => simp [List.any_cons, ih]
  have hpred : (fun q : κ × α =>
        !((A.map (fun p => (p.1, [some p.2]))).any
          (fun p => decide (p.1 = q.1))))
      = (fun q : κ × α => !(A.any (fun p => decide (p.1 = q.1)))) := by
    funext q
    rw [hany q]
  rw [List.map_append, hpred]
  congr 1
  · rw [List.map_map, List.map_map]
    apply List.map_congr_left
    intro p _
    simp [Function.comp]
  · rw [List.map_map]
    apply List.map_congr_left
    intro q _
    simp [Function.comp, List.replicate]

theorem mem_filterNotIn_iff {κ α : Type} [DecidableEq κ]
    (A B : List (κ × α)) (k : κ) :
    k ∈ (B.filter (fun q => !(A.any (fun p => decide (p.1 = q.1))))).map
        Prod.fst
      ↔ (k ∈ B.map Prod.fst ∧ k ∉ A.map Prod.fst) := by
  constructor
  · intro h
    obtain ⟨q, hqF, rfl⟩ := List.mem_map.mp h
    obtain ⟨hqB, hpred⟩ := List.mem_filter.mp hqF
    refine ⟨List.mem_map.mpr ⟨q, hqB, rfl⟩, fun hc => ?_⟩
    rw [Bool.not_eq_true'] at hpred
    rw [(any_key_eq q.1 A).mpr hc] at hpred
    exact Bool.noConfusion hpred
  · rintro ⟨hkB, hkA⟩
    obtain ⟨q, hqB, rfl⟩ := List.mem_map.mp hkB
    refine List.mem_map.mpr ⟨q, List.mem_filter.mpr ⟨hqB, ?_⟩, rfl⟩
    rw [Bool.not_eq_true']
    by_cases h : A.any (fun p => decide (p.1 = q.1)) = true
    · exact absurd ((any_key_eq q.1 A).mp h) hkA
    · exact Bool.not_eq_true _ ▸ h

/-! ## Claim C2 -/

/-- C2: the reconciliation of two per-language tables with pairwise-distinct
hierarchy keys is an outer join on the key: the unified table has
pairwise-distinct keys, a key appears in it exactly when it appears in
either language, and every row's two name cells are the `alookup` of its
key in the respective language table — so a key present only in language A
gets a `none` (null) cell for language B and vice versa, keys present in
both collapse into a single row with both cells populated, and every
distinct key yields exactly one row. -/
theorem C2_outer_join_merge {κ α : Type} [DecidableEq κ]
    (A B : List (κ × α))
    (hA : (A.map Prod.fst).Nodup) (hB : (B.map Prod.fst).Nodup) :
    ((mergeLanguages [A, B]).map Prod.fst).Nodup ∧
    (∀ k, k ∈ (mergeLanguages [A, B]).map Prod.fst ↔
      (k ∈ A.map Prod.fst ∨ k ∈ B.map Prod.fst)) ∧
    (∀ r ∈ mergeLanguages [A, B], r.2 = [alookup r.1 A, alookup r.1 B]) := by
  rw [mergeTwo_eq A B hB]
  have hkeys : ((A.map (fun p => (p.1, [some p.2, alookup p.1 B]))
      ++ (B.filter (fun q => !(A.any (fun p => decide (p.1 = q.1))))).map
          (fun q => (q.1, [none, some q.2]))).map Prod.fst)
      = A.map Prod.fst
        ++ (B.filter (fun q =>
            !(A.any (fun p => decide (p.1 = q.1))))).map Prod.fst := by
    rw [List.map_append, List.map_map, List.map_map]
    congr 1
  refine ⟨?_, ?_, ?_⟩
  · rw [hkeys]
    refine List.Nodup.append hA ?_ ?_
    · exact hB.sublist (List.Sublist.map Prod.fst (List.filter_sublist B))
    · intro k hkA hkF
      exact ((mem_filterNotIn_iff A B k).mp hkF).2 hkA
  · intro k
    rw [hkeys, List.mem_append, mem_filterNotIn_iff]
    by_cases hkA : k ∈ A.map Prod.fst
    · simp [hkA]
    · simp [hkA]
  · intro r hr
    rcases List.mem_append.mp hr with hL | hR
    · obtain ⟨p, hpA, rfl⟩ := List.mem_map.mp hL
      have : alookup p.1 A = some p.2 :=
        alookup_of_mem_nodup hA (by rw [Prod.mk.eta]; exact hpA)
      simp [this]
    · obtain ⟨q, hqF, rfl⟩ := List.mem_map.mp hR
      have hqB : q ∈ B := (List.mem_filter.mp hqF).1
      have hnotA : q.1 ∉ A.map Prod.fst := by
        intro hc
        have hpred := (List.mem_filter.mp hqF).2
        rw [Bool.not_eq_true'] at hpred
        rw [(any_key_eq q.1 A).mpr hc] at hpred
        exact Bool.noConfusion hpred
      have hBL : alookup q.1 B = some q.2 :=
        alookup_of_mem_nodup hB (by rw [Prod.mk.eta]; exact hqB)
      simp [(alookup_eq_none q.1 A).mpr hnotA, hBL]

/-- Witness for C2 at the scenario of the spec: language A has keys
K1, K2 and language B has K2, K3; additionally the merged table is computed
concretely and equals the three expected rows with the expected nulls. -/
theorem C2_outer_join_merge_witness :
    (((mergeLanguages [[("K1", "a1"), ("K2", "a2")],
        [("K2", "b2"), ("K3", "b3")]]).map Prod.fst).Nodup ∧
      (∀ k, k ∈ (mergeLanguages [[("K1", "a1"), ("K2", "a2")],
          [("K2", "b2"), ("K3", "b3")]]).map Prod.fst ↔
        (k ∈ [("K1", "a1"), ("K2", "a2")].map Prod.fst ∨
          k ∈ [("K2", "b2"), ("K3", "b3")].map Prod.fst)) ∧
      (∀ r ∈ mergeLanguages [[("K1", "a1"), ("K2", "a2")],
          [("K2", "b2"), ("K3", "b3")]],
        r.2 = [alookup r.1 [("K1", "a1"), ("K2", "a2")],
               alookup r.1 [("K2", "b2"), ("K3", "b3")]])) ∧
    mergeLanguages [[("K1", "a1"), ("K2", "a2")], [("K2", "b2"), ("K3", "b3")]]
      = [("K1", [some "a1", none]), ("K2", [some "a2", some "b2"]),
         ("K3", [none, some "b3"])] :=
  ⟨C2_outer_join_merge _ _ (by decide) (by decide), by decide⟩

/-! ## Claim C8 -/

theorem perm_any {α : Type} {l₁ l₂ : List α} (h : l₁.Perm l₂)
    (p : α → Bool) : l₁.any p = l₂.any p := by
  rw [Bool.eq_iff_iff, List.any_eq_true, List.any_eq_true]
  exact ⟨fun ⟨a, ha, hp⟩ => ⟨a, h.mem_iff.mp ha, hp⟩,
    fun ⟨a, ha, hp⟩ => ⟨a, h.mem_iff.mpr ha, hp⟩⟩

/-- Permutation congruence of one pandas outer merge: permuting the rows of
either input permutes the rows of the output. -/
theorem pdOuterMerge_perm {κ γ β : Type} [DecidableEq κ]
    {L₁ L₂ : List (κ × γ)} {R₁ R₂ : List (κ × β)}
    (hL : L₁.Perm L₂) (hR : R₁.Perm R₂) :
    (pdOuterMerge L₁ R₁).Perm (pdOuterMerge L₂ R₂) := by
  unfold pdOuterMerge
  apply List.Perm.append
  · have h1 : L₁.flatMap (fun p =>
        let ms := R₁.filter (fun q => decide (q.1 = p.1))
        if ms.isEmpty then [(p.1, some p.2, none)]
        else ms.map (fun q => (p.1, some p.2, some q.2))) |>.Perm
        (L₁.flatMap (fun p =>
          let ms := R₂.filter (fun q => decide (q.1 = p.1))
          if ms.isEmpty then [(p.1, some p.2, none)]
          else ms.map (fun q => (p.1, some p.2, some q.2)))) := by
      apply List.Perm.flatMap_left
      intro p _
      have hf : (R₁.filter (fun q => decide (q.1 = p.1))).Perm
          (R₂.filter (fun q => decide (q.1 = p.1))) := hR.filter _
      by_cases he : (R₁.filter (fun q => decide (q.1 = p.1))).isEmpty = true
      · have he₂ : (R₂.filter (fun q =>
            decide (q.1 = p.1))).isEmpty = true := by
          rw [List.isEmpty_iff_length_eq_zero] at he ⊢
          rw [← hf.length_eq]
          exact he
        simp only [he, he₂, if_true]
        exact List.Perm.refl _
      · have he₂ : ¬(R₂.filter (fun q =>
            decide (q.1 = p.1))).isEmpty = true := by
          rw [List.isEmpty_iff_length_eq_zero] at he ⊢
          rw [← hf.length_eq]
          exact he
        simp only [he, he₂, if_false]
        exact hf.map _
    exact h1.trans (hL.flatMap_right _)
  · have hpred : (fun q : κ × β => !(L₁.any (fun p => decide (p.1 = q.1))))
        = (fun q : κ × β => !(L₂.any (fun p => decide (p.1 = q.1)))) :=
      funext fun q => by rw [perm_any hL]
    rw [hpred]
    exact (hR.filter _).map _

theorem mergeStep_perm {κ α : Type} [DecidableEq κ] (i : Nat)
    {acc₁ acc₂ : List (κ × List (Option α))} {t₁ t₂ : List (κ × α)}
    (ha : acc₁.Perm acc₂) (ht : t₁.Perm t₂) :
    (mergeStep i acc₁ t₁).Perm (mergeStep i acc₂ t₂) :=
  (pdOuterMerge_perm ha ht).map _

theorem mergeLanguagesAux_perm {κ α : Type} [DecidableEq κ] :
    ∀ {ts₁ ts₂ : List (List (κ × α))},
      List.Forall₂ List.Perm ts₁ ts₂ →
      ∀ {acc₁ acc₂ : List (κ × List (Option α))}, acc₁.Perm acc₂ →
      ∀ i, (mergeLanguagesAux acc₁ i ts₁).Perm
        (mergeLanguagesAux acc₂ i ts₂) := by
  intro ts₁ ts₂ h
  induction h with
  | nil => intro acc₁ acc₂ ha _; exact ha
  | cons hhead _ ih =>
    intro acc₁ acc₂ ha i
    exact ih (mergeStep_perm i ha hhead) (i + 1)

/-- C8: the reconciler is a deterministic function of the per-language
tables up to row order.  Two runs whose per-language inputs agree up to row
order (in particular, two runs on literally equal inputs, which are
language-wise `Perm.refl`-related) produce unified tables that agree up to
row order; the column layout (key, then one cell per language in language
order) is fixed by construction. -/
theorem C8_reconciler_deterministic {κ α : Type} [DecidableEq κ]
    (ts₁ ts₂ : List (List (κ × α))) (h : List.Forall₂ List.Perm ts₁ ts₂) :
    (mergeLanguages ts₁).Perm (mergeLanguages ts₂) := by
  cases h with
  | nil => exact List.Perm.refl _
  | cons hhead htail => exact mergeLanguagesAux_perm htail (hhead.map _) 1

/-- Witness for C8: two runs on the same two-language data, the first table
given in two different row orders. -/
theorem C8_reconciler_deterministic_witness :
    (mergeLanguages [[("K1", "a"), ("K2", "b")], [("K2", "c")]]).Perm
      (mergeLanguages [[("K2", "b"), ("K1", "a")], [("K2", "c")]]) :=
  C8_reconciler_deterministic _ _ (List.Forall₂.cons (by decide)
    (List.Forall₂.cons (by decide) List.Forall₂.nil))

/-! ## Claims C5 and C10: property flattener -/

theorem alookup_append_right {k : String} (v : String × String) :
    ∀ (d : List (String × String)), k ≠ v.1 →
      alookup k (d ++ [v]) = alookup k d
  | [], h => by
    have hv : ¬v.1 = k := fun hc => h hc.symm
    simp [alookup, hv]
  | p :: rest, h => by
    by_cases hp : p.1 = k
    · simp [alookup, hp]
    · simp only [List.cons_append, alookup, if_neg hp]
      exact alookup_append_right v rest h

theorem alookup_map_overwrite (k k' v : String) (h : k ≠ k') :
    ∀ d : List (String × String),
      alookup k (d.map (fun p => if p.1 = k' then (p.1, v) else p))
        = alookup k d := by
  intro d
  induction d with
  | nil => rfl
  | cons p rest ih =>
    by_cases hk' : p.1 = k'
    · have hp : ¬p.1 = k := fun hc => h (hc.symm.trans hk')
      have hkk : ¬k' = k := fun hc => h hc.symm
      simp [alookup, hk', hp, hkk, ih]
    · by_cases hp : p.1 = k
      · simp [alookup, hk', hp, h]
      · simp [alookup, hk', hp, ih]

theorem dinsert_alookup_ne (d : List (String × String)) (k' v : String)
    {k : String} (h : k ≠ k') : alookup k (dinsert d k' v) = alookup k d := by
  unfold dinsert
  by_cases hmem : d.any (fun p => decide (p.1 = k')) = true
  · rw [if_pos hmem]
    exact alookup_map_overwrite k k' v h d
  · rw [if_neg hmem]
    exact alookup_append_right (k', v) d h

theorem dictUpdate_alookup_notin :
    ∀ (e d : List (String × String)) {k : String}, k ∉ e.map Prod.fst →
      alookup k (dictUpdate d e) = alookup k d
  | [], d, k, _ => rfl
  | kv :: rest, d, k, h => by
    simp only [List.map_cons, List.mem_cons, not_or] at h
    show alookup k (dictUpdate (dinsert d kv.1 kv.2) rest) = alookup k d
    rw [dictUpdate_alookup_notin rest _ h.2, dinsert_alookup_ne _ _ _ h.1]

/-- C5: per schema entry, the flattener emits exactly one record — the
entry's own field dict, whose `valueId`/`valueText` lookups are null — when
the entry carries no `propertyValues` key, and exactly `N` records (one per
value, each agreeing with the entry's fields on every key no value dict
overrides, in particular on the scalar flags) when the key holds `N`
values; record counts add up over a schema list, and the spec's example of
one non-enumerated property plus one two-value property yields exactly 3
records. -/
theorem C5_property_flattener :
    (∀ item : PropItem, item.propertyValues = none →
        flattenItem item = [item.fields]) ∧
    (∀ item : PropItem, item.propertyValues = none →
        alookup "valueId" item.fields = none →
        alookup "valueText" item.fields = none →
        ∀ r ∈ flattenItem item,
          alookup "valueId" r = none ∧ alookup "valueText" r = none) ∧
    (∀ (item : PropItem) (vs : List (List (String × String))),
        item.propertyValues = some vs →
        (flattenItem item).length = vs.length ∧
        (∀ k, (∀ v ∈ vs, k ∉ v.map Prod.fst) →
          ∀ r ∈ flattenItem item, alookup k r = alookup k item.fields)) ∧
    (∀ items : List PropItem,
        (flatten_properties (.plist items)).length
          = (items.map (fun it => (flattenItem it).length)).sum) ∧
    (∀ f1 f2 v1 v2 : List (String × String),
        (flatten_properties (.plist
          [⟨f1, none⟩, ⟨f2, some [v1, v2]⟩])).length = 3) := by
  refine ⟨?_, ?_, ?_, ?_, ?_⟩
  · intro item h
    simp [flattenItem, h]
  · intro item h h1 h2 r hr
    simp only [flattenItem, h, List.mem_singleton] at hr
    rw [hr]
    exact ⟨h1, h2⟩
  · intro item vs h
    constructor
    · simp [flattenItem, h]
    · intro k hk r hr
      simp only [flattenItem, h, List.mem_map] at hr
      obtain ⟨v, hv, rfl⟩ := hr
      exact dictUpdate_alookup_notin v item.fields (hk v hv)
  · intro items
    induction items with
    | nil => rfl
    | cons it rest ih =>
      simp [flatten_properties, List.flatMap_cons] at ih ⊢
      omega
  · intro f1 f2 v1 v2
    simp [flatten_properties, flattenItem, List.flatMap_cons]

/-- Witness for C5 at concrete schema entries. -/
theorem C5_property_flattener_witness :
    flattenItem ⟨[("propertyId", "p1"), ("saleProp", "false")], none⟩
      = [[("propertyId", "p1"), ("saleProp", "false")]] ∧
    (flatten_properties (.plist
      [⟨[("propertyId", "p1")], none⟩,
       ⟨[("propertyId", "p2")],
        some [[("valueId", "v1")], [("valueId", "v2")]]⟩])).length = 3 :=
  ⟨C5_property_flattener.1 _ rfl, C5_property_flattener.2.2.2.2 _ _ _ _⟩

/-- C10: an entry whose `propertyValues` key is present but holds the empty
list contributes zero records (the per-value loop runs zero times and the
no-key fallback is not taken), while an entry without the key contributes
exactly one record; contributions concatenate positionally in the schema
list. -/
theorem C10_empty_value_list :
    (∀ item : PropItem, item.propertyValues = some [] →
        flattenItem item = []) ∧
    (∀ item : PropItem, item.propertyValues = none →
        flattenItem item = [item.fields]) ∧
    (∀ (pre post : List PropItem) (item : PropItem),
        flatten_properties (.plist (pre ++ item :: post))
          = flatten_properties (.plist pre) ++ flattenItem item
            ++ flatten_properties (.plist post)) := by
  refine ⟨?_, ?_, ?_⟩
  · intro item h
    simp [flattenItem, h]
  · intro item h
    simp [flattenItem, h]
  · intro pre post item
    simp [flatten_properties, List.flatMap_append, List.flatMap_cons,
      List.append_assoc]

/-- Witness for C10 at concrete schema entries. -/
theorem C10_empty_value_list_witness :
    flattenItem ⟨[("propertyId", "p")], some []⟩ = [] ∧
    flattenItem ⟨[("propertyId", "p")], none⟩ = [[("propertyId", "p")]] :=
  ⟨C10_empty_value_list.1 _ rfl, C10_empty_value_list.2.1 _ rfl⟩

/-! ## Claim C6 -/

/-- C6 (code bug): evaluation of the retry loop at the failing input.  The
first conjunct block: language `en` raises on its original per-language
fetch and its retried fetch would succeed (`c6Attempts "en" 1 ≠ none`), yet
`en` is absent from the collected tables — `as_completed` iterates only the
snapshot of original futures, so the resubmitted future's result is never
read — and the single shared budget drops from 3 to 2.  The second block: a
persistently failing language is resubmitted exactly once even though
budget remains, so no language is ever retried up to the full fixed count. -/
theorem C6_retry_results_discarded :
    ((fetch_category_properties c6Attempts ["en", "de", "fr"]).dfs.map
        Prod.fst = ["de", "fr"] ∧
      (fetch_category_properties c6Attempts ["en", "de", "fr"]).retries
        = ["en"] ∧
      (fetch_category_properties c6Attempts ["en", "de", "fr"]).retryCount
        = 2 ∧
      c6Attempts "en" 1 ≠ none) ∧
    ((fetch_category_properties c6AttemptsFail ["en", "de", "fr"]).retries
        = ["en"] ∧
      (fetch_category_properties c6AttemptsFail
        ["en", "de", "fr"]).retryCount = 2) := by
  refine ⟨⟨by decide, by decide, by decide, by decide⟩, by decide, by decide⟩

/-! ## Claim C7 -/

theorem columnOrder_fold_eq (merged : List String) :
    ∀ (c : List String) (co : List String),
      (∀ col ∈ c, endsWithLang col = true →
        merged.contains (pyDropRight col 3 ++ "_") = false) →
      c.foldl (columnOrderStep merged) co = co ++ c.filter endsWithLang := by
  intro c
  induction c with
  | nil => intro co _; simp
  | cons col rest ih =>
    intro co h
    simp only [List.foldl_cons]
    by_cases hl : endsWithLang col = true
    · have hm := h col (List.mem_cons_self _ _) hl
      have hm' : pyDropRight col 3 ++ "_" ∉ merged := by simpa using hm
      have hstep : columnOrderStep merged co col = co ++ [col] := by
        unfold columnOrderStep
        rw [if_pos hl]
        simp [hm']
      rw [hstep, ih _ (fun col' hc' hl' =>
        h col' (List.mem_cons_of_mem _ hc') hl')]
      rw [List.filter_cons_of_pos (by simpa using hl), List.append_assoc]
      rfl
    · have hstep : columnOrderStep merged co col = co := by
        unfold columnOrderStep
        rw [if_neg hl]
      rw [hstep, ih _ (fun col' hc' hl' =>
        h col' (List.mem_cons_of_mem _ hc') hl')]
      rw [List.filter_cons_of_neg (by simpa using hl)]

theorem columnOrder_outer_eq (merged : List String) :
    ∀ (ds : List (List String)) (co : List String),
      (∀ c ∈ ds, ∀ col ∈ c, endsWithLang col = true →
        merged.contains (pyDropRight col 3 ++ "_") = false) →
      ds.foldl (fun co c => c.foldl (columnOrderStep merged) co) co
        = co ++ ds.flatMap (fun c => c.filter endsWithLang) := by
  intro ds
  induction ds with
  | nil => intro co _; simp
  | cons c rest ih =>
    intro co h
    simp only [List.foldl_cons, List.flatMap_cons]
    rw [columnOrder_fold_eq merged c co (h c (List.mem_cons_self _ _))]
    rw [ih _ (fun c' hc' => h c' (List.mem_cons_of_mem _ hc'))]
    rw [List.append_assoc]

/-- C7 counterexample: on the concrete per-language column lists of the
pipeline, the exported column list is not the one the claim asserts — the
code's fixed head also contains `multiSelect` (between `showType` and the
language-suffixed text columns), which the claimed list lacks. -/
theorem C7_multiselect_counterexample :
    merge_category_properties_cols c7DfCols =
      .ok (propFixedCols ++
        ["propertyText_en", "valueText_en", "propertyText_de",
         "valueText_de", "propertyText_fr", "valueText_fr"]) ∧
    propFixedCols ++
        ["propertyText_en", "valueText_en", "propertyText_de",
         "valueText_de", "propertyText_fr", "valueText_fr"]
      ≠ claimedPropertyColumns ["en", "de", "fr"] ∧
    "multiSelect" ∈ propFixedCols ++
        ["propertyText_en", "valueText_en", "propertyText_de",
         "valueText_de", "propertyText_fr", "valueText_fr"] ∧
    "multiSelect" ∉ claimedPropertyColumns ["en", "de", "fr"] :=
  ⟨rfl, by decide, by decide, by decide⟩

/-- C7 (amended): the exported unified property table has exactly the
columns `categoryId, valueId, propertyId, saleProp, required, inputProp,
enumProp, hasUnit, showType, multiSelect`, followed by each per-language
table's language-suffixed text columns (`propertyText_<lang>`,
`valueText_<lang>`) in table order — provided no language-suffixed column's
underscore-terminated stem names a merged column (the dead
`prefix_col_name` branch) and every selected column exists in the merged
frame (otherwise the final selection raises a `KeyError`). -/
theorem C7_amended_column_order (dfCols : List (List String))
    (hpref : ∀ c ∈ dfCols, ∀ col ∈ c, endsWithLang col = true →
      (mergedColumns dfCols).contains (pyDropRight col 3 ++ "_") = false)
    (hsel : (propFixedCols
        ++ dfCols.flatMap (fun c => c.filter endsWithLang)).all
      (fun c => (mergedColumns dfCols).contains c) = true) :
    merge_category_properties_cols dfCols =
      .ok (propFixedCols
        ++ dfCols.flatMap (fun c => c.filter endsWithLang)) := by
  unfold merge_category_properties_cols merge_property_column_order
  rw [columnOrder_outer_eq (mergedColumns dfCols) dfCols propFixedCols hpref]
  rw [if_pos hsel]

/-- Witness for the amended C7 at the pipeline's concrete column lists. -/
theorem C7_amended_column_order_witness :
    merge_category_properties_cols c7DfCols =
      .ok (propFixedCols
        ++ c7DfCols.flatMap (fun c => c.filter endsWithLang)) :=
  C7_amended_column_order c7DfCols (by decide) (by decide)

end Cpv
